import Mathlib

/-!
Verification development for the SecInt threat-intelligence platform core:
the IOC extractor (`backend/services/ioc_extractor.py`), the severity scorer
(`backend/services/severity_scorer.py`), the direct-ingestion pipeline
(`backend/services/direct_ingest.py`), the API health monitor
(`backend/services/api_validator.py`) and the feed fetchers
(`backend/services/threat_feeds.py`), shallowly embedded in Lean.

Python strings that are scanned character-wise (lowercasing, substring
tests, splitting) are modelled as `List Char`; strings used only as keys or
enum-like tags are modelled as `String`.  Python numbers are modelled as
`ℤ`/`ℚ` (the repository only ever divides integers).  Python dicts whose
keys matter are modelled as association lists.
-/

namespace SecInt

/-- Characters of a string literal, for `List Char` based text fields. -/
def strL (s : String) : List Char := s.toList

/-- Python `str.lower()` (ASCII-relevant part, which is all the repo uses). -/
def lowerL (s : List Char) : List Char := s.map Char.toLower

/-- Python `needle in hay` substring containment on strings. -/
def containsSub (hay needle : List Char) : Bool :=
  match hay with
  | [] => needle.isEmpty
  | _ :: t => needle.isPrefixOf hay || containsSub t needle

/-- Digits value of a nonempty all-digit character list (else `none`). -/
def digitsVal (s : List Char) : Option ℕ :=
  if s ≠ [] ∧ s.all Char.isDigit then
    some (s.foldl (fun acc c => 10 * acc + (c.toNat - '0'.toNat)) 0)
  else none

/-- Python `int(s)` on a string: optional sign then decimal digits; `none`
models a raised `ValueError`.  (Surrounding whitespace and underscore
separators, which the repository never feeds in, are not modelled.) -/
def pyIntParse : List Char → Option ℤ
  | '-' :: rest => (digitsVal rest).map (fun n => -(n : ℤ))
  | '+' :: rest => (digitsVal rest).map (fun n => (n : ℤ))
  | s => (digitsVal s).map (fun n => (n : ℤ))

/-- Decimal rendering of an integer, as Python `str(int)` / f-string use. -/
def intChars (n : ℤ) : List Char := (toString n).toList

/-- A primitive Python value (the shapes `vt_detections` data takes). -/
inductive PyPrim where
  | pNone
  | pInt (n : ℤ)
  | pStr (s : List Char)
deriving DecidableEq

/-- A Python value: a primitive or a list/tuple of primitives. -/
inductive PyVal where
  | prim (p : PyPrim)
  | plist (xs : List PyPrim)
deriving DecidableEq

/-- Python truthiness of a `PyVal`. -/
def pyTruthy : PyVal → Bool
  | .prim .pNone => false
  | .prim (.pInt n) => n ≠ 0
  | .prim (.pStr s) => s ≠ []
  | .plist xs => xs ≠ []

/-- Python `int(x)` on a primitive; `none` models a raised exception. -/
def pyPrimToInt : PyPrim → Option ℤ
  | .pInt n => some n
  | .pStr s => pyIntParse s
  | .pNone => none

/-! ## IOC extractor (`ioc_extractor.py`) -/

/-- The `IOCType` enum of `ioc_extractor.py`. -/
inductive IOCType where
  | IPV4 | DOMAIN | URL | MD5 | SHA1 | SHA256 | CVE | EMAIL
deriving DecidableEq

/-- Iteration order of `PATTERNS` / `compiled_patterns` (dict insertion order). -/
def allIocTypes : List IOCType :=
  [.IPV4, .DOMAIN, .URL, .MD5, .SHA1, .SHA256, .CVE, .EMAIL]

/-- `PRIVATE_IP_PATTERNS`: each regex is anchored at the start, so each is a
string-prefix test; `^172\.(1[6-9]|2[0-9]|3[0-1])\.` is the sixteen prefixes
`172.16.` … `172.31.`. -/
def privateIpPrefixes : List (List Char) :=
  [strL "127.", strL "10.",
   strL "172.16.", strL "172.17.", strL "172.18.", strL "172.19.",
   strL "172.20.", strL "172.21.", strL "172.22.", strL "172.23.",
   strL "172.24.", strL "172.25.", strL "172.26.", strL "172.27.",
   strL "172.28.", strL "172.29.", strL "172.30.", strL "172.31.",
   strL "192.168.", strL "0.", strL "169.254.", strL "224.", strL "255."]

/-- `any(pattern.match(ip) for pattern in self.private_ip_compiled)`. -/
def isPrivateIp (ip : List Char) : Bool :=
  privateIpPrefixes.any (fun p => p.isPrefixOf ip)

/-- `BENIGN_DOMAINS` of `ioc_extractor.py`. -/
def benignDomains : List (List Char) :=
  [strL "localhost", strL "example.com", strL "example.org", strL "example.net",
   strL "test.com", strL "domain.com", strL "google.com", strL "microsoft.com",
   strL "w3.org", strL "ietf.org", strL "github.com", strL "stackoverflow.com"]

/-- Octet check of `_validate_ips`: `int(x)` per dot-separated part (a raised
`ValueError` skips the candidate), then every octet in `0..255`. -/
def validOctets (ip : List Char) : Bool :=
  match (ip.splitOn '.').mapM pyIntParse with
  | some os => os.all (fun o => decide (0 ≤ o) && decide (o ≤ 255))
  | none => false

/-- `_validate_ips`. -/
def validateIps (ips : List (List Char)) : List (List Char) :=
  ips.filter (fun ip => !isPrivateIp ip && validOctets ip)

/-- `_validate_domains`: lower-case, then skip benign-listed values, values
without a dot or fewer than two dot-labels, and purely numeric values. -/
def validateDomains (ds : List (List Char)) : List (List Char) :=
  ds.filterMap (fun d =>
    let dl := lowerL d
    if benignDomains.contains dl then none
    else if !(d.contains '.') || (d.splitOn '.').length < 2 then none
    else if (d.filter (· ≠ '.')) ≠ [] ∧ (d.filter (· ≠ '.')).all Char.isDigit then none
    else some dl)

/-- `_validate_hashes`: keep alphanumeric values, lower-cased. -/
def validateHashes (hs : List (List Char)) : List (List Char) :=
  (hs.filter (fun h => h ≠ [] && h.all Char.isAlphanum)).map lowerL

/-- `_validate_urls`: drop URLs containing any benign domain as a substring of
the lower-cased URL; keep values with length > 10 and a dot (original case). -/
def validateUrls (us : List (List Char)) : List (List Char) :=
  us.filter (fun u =>
    !(benignDomains.any (fun b => containsSub (lowerL u) b))
      && decide (10 < u.length) && u.contains '.')

/-- `_validate_iocs` dispatch. -/
def validateIocs (ty : IOCType) (iocs : List (List Char)) : List (List Char) :=
  match ty with
  | .IPV4 => validateIps iocs
  | .DOMAIN => validateDomains iocs
  | .MD5 | .SHA1 | .SHA256 => validateHashes iocs
  | .URL => validateUrls iocs
  | _ => iocs

/-- Python string `≤` (lexicographic by code point), for `sorted(...)`. -/
def lexLe : List Char → List Char → Bool
  | [], _ => true
  | _ :: _, [] => false
  | a :: as, b :: bs => if a = b then lexLe as bs else decide (a < b)

/-- Insertion into a `lexLe`-sorted list. -/
def insertSorted (x : List Char) : List (List Char) → List (List Char)
  | [] => [x]
  | y :: ys => if lexLe x y then x :: y :: ys else y :: insertSorted x ys

/-- `sorted(...)` on a list of strings. -/
def sortStrs : List (List Char) → List (List Char)
  | [] => []
  | x :: xs => insertSorted x (sortStrs xs)

/-- `extract_all`: for each type, collect the pattern's matches (the regex
engine is abstracted as the `m` argument), deduplicate (`set(matches)`),
validate, and record the sorted nonempty results keyed by type.  Validators
return sets, so their output is deduplicated as well. -/
def extract_all (m : IOCType → List Char → List (List Char)) (text : List Char) :
    List (IOCType × List (List Char)) :=
  if text = [] then []
  else
    allIocTypes.filterMap (fun ty =>
      let found := m ty text
      if found = [] then none
      else
        let unique := (validateIocs ty found.dedup).dedup
        if unique = [] then none else some (ty, sortStrs unique))

/-! ## Severity scorer (`severity_scorer.py`)

`calculate_severity` reads the current time (`datetime.utcnow()`) and parses
ISO-8601 timestamps; both are external to the pure rule logic, so the Lean
embedding takes the current time `now` (seconds) and the ISO parser `parse`
as parameters.  Each `# === ... ===` block of the source is one block
function returning its score contribution and appended reasons. -/

/-- The `SeverityLevel` enum. -/
inductive SeverityLevel where
  | CRITICAL | HIGH | MEDIUM | LOW | UNKNOWN
deriving DecidableEq

/-- A human-readable reason string, modelled as a tag carrying the data the
f-string interpolates. -/
inductive Reason where
  | vtDetection (dets : Option PyVal) (thresholdPercent : ℕ)
  | criticalMalware (family : List Char)
  | highRiskMalware (family : List Char)
  | knownMalware (family : List Char)
  | abuseConfidence (score : ℤ) (thresholdPercent : ℕ)
  | criticalThreatType
  | recentThreat7
  | recentThreat30
  | activeMalwareUrl
  | confirmedMalwareDistribution
  | negativeVtReputation (rep : ℤ)
  | confirmedBySources (n : ℕ)
deriving DecidableEq

/-- One per-provider sub-document of the `sources` mapping.  Only the fields
the scorer and the ingestion pipeline read are modelled; a missing field is
`none` (the source reads them with `.get(..., default)`). -/
structure SourceEntry where
  abuse_confidence_score : Option ℤ := none
  reputation : Option ℤ := none
deriving DecidableEq

/-- `first_seen` values reaching the scorer: a datetime or an ISO string. -/
inductive FirstSeen where
  | fsDT (t : ℤ)
  | fsStr (s : List Char)
deriving DecidableEq

/-- The enriched IOC dict passed to `calculate_severity`, restricted to the
records on which the function returns: fields the scorer reads with `.get`
are `Option` (absent key = `none`), and a present key is assumed to hold a
value of its proper type; `sources` defaults to the empty mapping; `extras`
holds every other key of the dict, untouched by the scorer.  A key that is
present but holds `None` makes the source raise instead of returning — that
exception behaviour is modelled separately by `PyIOCData` and
`calculate_severity_py` below. -/
structure IOCData where
  ioc_type : Option String := none
  sources : List (String × SourceEntry) := []
  vt_detection_rate : Option ℚ := none
  vt_detections : Option PyVal := none
  malware_family : Option (List Char) := none
  context : Option (List Char) := none
  threat_type : Option (List Char) := none
  description : Option (List Char) := none
  first_seen : Option FirstSeen := none
  source : Option String := none
  url_status : Option (List Char) := none
  threat : Option (List Char) := none
  severity : Option SeverityLevel := none
  severity_score : Option ℕ := none
  severity_reasons : Option (List Reason) := none
  extras : List (String × PyVal) := []
deriving DecidableEq

/-- `CRITICAL_MALWARE_FAMILIES`. -/
def criticalMalwareFamilies : List (List Char) :=
  [strL "emotet", strL "trickbot", strL "ryuk", strL "ransomware", strL "wannacry",
   strL "lockbit", strL "conti", strL "revil", strL "sodinokibi", strL "blackmatter",
   strL "darkside", strL "ragnar", strL "maze", strL "egregor", strL "netwalker",
   strL "dridex", strL "qbot", strL "qakbot", strL "icedid", strL "cobalt strike",
   strL "metasploit", strL "mimikatz", strL "lazarus", strL "apt28", strL "apt29"]

/-- `HIGH_RISK_MALWARE_FAMILIES`. -/
def highRiskMalwareFamilies : List (List Char) :=
  [strL "gozi", strL "ursnif", strL "zeus", strL "formbook", strL "agent tesla",
   strL "lokibot", strL "njrat", strL "remcos", strL "nanocore", strL "asyncrat",
   strL "redline", strL "vidar", strL "raccoon", strL "azorult", strL "baldr",
   strL "netwire", strL "warzone", strL "darkcomet", strL "poison ivy"]

/-- `CRITICAL_THREAT_TYPES`. -/
def criticalThreatTypes : List (List Char) :=
  [strL "ransomware", strL "c2", strL "command and control", strL "botnet",
   strL "apt", strL "advanced persistent threat", strL "0day", strL "zero-day",
   strL "exploit kit", strL "cryptominer"]

/-- `# === VirusTotal Detection Rate ===` block (lines 67-77). -/
def vtRateBlock (rate : Option ℚ) (dets : Option PyVal) : ℕ × List Reason :=
  let v := rate.getD 0
  if (8 : ℚ)/10 < v then (50, [.vtDetection dets 80])
  else if (5 : ℚ)/10 < v then (30, [.vtDetection dets 50])
  else if (2 : ℚ)/10 < v then (15, [.vtDetection dets 20])
  else (0, [])

/-- `# === Malware Family ===` block (lines 79-90). -/
def malwareBlock (fam : Option (List Char)) : ℕ × List Reason :=
  let mf := lowerL (fam.getD [])
  if mf = [] then (0, [])
  else if criticalMalwareFamilies.any (fun c => containsSub mf c) then
    (40, [.criticalMalware mf])
  else if highRiskMalwareFamilies.any (fun c => containsSub mf c) then
    (25, [.highRiskMalware mf])
  else (10, [.knownMalware mf])

/-- `# === AbuseIPDB Score ===` block (lines 92-103). -/
def abuseBlock (ty : String) (srcs : List (String × SourceEntry)) : ℕ × List Reason :=
  if ty = "ipv4" then
    match List.lookup "abuseipdb" srcs with
    | none => (0, [])
    | some e =>
      let a := e.abuse_confidence_score.getD 0
      if 90 < a then (30, [.abuseConfidence a 90])
      else if 70 < a then (20, [.abuseConfidence a 70])
      else if 50 < a then (10, [.abuseConfidence a 50])
      else (0, [])
  else (0, [])

/-- `# === Threat Context/Description ===` block (lines 105-114). -/
def threatTextBlock (ctx tt desc : Option (List Char)) : ℕ × List Reason :=
  let combined :=
    lowerL (ctx.getD []) ++ [' '] ++ lowerL (tt.getD []) ++ [' '] ++ lowerL (desc.getD [])
  if criticalThreatTypes.any (fun c => containsSub combined c) then
    (25, [.criticalThreatType])
  else (0, [])

/-- `# === Recency ===` block (lines 116-132): an empty/absent value is
falsy, an unparsable ISO string degrades to no contribution; `age` bands use
7- and 30-day thresholds (in seconds). -/
def recencyBlock (now : ℤ) (parse : List Char → Option ℤ) (fs : Option FirstSeen) :
    ℕ × List Reason :=
  let band := fun (t : ℤ) =>
    if now - t < 7 * 86400 then ((15 : ℕ), [Reason.recentThreat7])
    else if now - t < 30 * 86400 then (10, [Reason.recentThreat30])
    else (0, [])
  match fs with
  | none => (0, [])
  | some (.fsDT t) => band t
  | some (.fsStr s) =>
    if s = [] then (0, [])
    else match parse s with
      | none => (0, [])
      | some t => band t

/-- `# === URLhaus Specific ===` block (lines 134-145). -/
def urlhausBlock (src : Option String) (us threat : Option (List Char)) :
    ℕ × List Reason :=
  if src = some "urlhaus" then
    let s1 := if lowerL (us.getD []) = strL "online" then
        ((20 : ℕ), [Reason.activeMalwareUrl]) else (0, [])
    let s2 := if containsSub (lowerL (threat.getD [])) (strL "malware_download") then
        ((15 : ℕ), [Reason.confirmedMalwareDistribution]) else (0, [])
    (s1.1 + s2.1, s1.2 ++ s2.2)
  else (0, [])

/-- `# === VirusTotal Reputation ===` block (lines 147-152). -/
def vtRepBlock (srcs : List (String × SourceEntry)) : ℕ × List Reason :=
  match List.lookup "virustotal" srcs with
  | none => (0, [])
  | some e =>
    let rep := e.reputation.getD 0
    if rep < -50 then (20, [.negativeVtReputation rep]) else (0, [])

/-- `len(sources)`: number of keys of the mapping (distinct, as in a dict). -/
def numSources (srcs : List (String × SourceEntry)) : ℕ :=
  ((srcs.map Prod.fst).dedup).length

/-- `# === Multiple Sources ===` block (lines 154-161). -/
def numSourcesBlock (srcs : List (String × SourceEntry)) : ℕ × List Reason :=
  let n := numSources srcs
  if 3 ≤ n then (15, [.confirmedBySources n])
  else if 2 ≤ n then (10, [.confirmedBySources n])
  else (0, [])

/-- Score and reasons accumulated over all blocks, in source order. -/
def severityScoreReasons (now : ℤ) (parse : List Char → Option ℤ) (r : IOCData) :
    ℕ × List Reason :=
  let b1 := vtRateBlock r.vt_detection_rate r.vt_detections
  let b2 := malwareBlock r.malware_family
  let b3 := abuseBlock (r.ioc_type.getD "unknown") r.sources
  let b4 := threatTextBlock r.context r.threat_type r.description
  let b5 := recencyBlock now parse r.first_seen
  let b6 := urlhausBlock r.source r.url_status r.threat
  let b7 := vtRepBlock r.sources
  let b8 := numSourcesBlock r.sources
  (b1.1 + b2.1 + b3.1 + b4.1 + b5.1 + b6.1 + b7.1 + b8.1,
   b1.2 ++ b2.2 ++ b3.2 ++ b4.2 ++ b5.2 ++ b6.2 ++ b7.2 ++ b8.2)

/-- `# === Determine Severity Level ===` (lines 163-173). -/
def severityLevelOf (s : ℕ) : SeverityLevel :=
  if 70 ≤ s then .CRITICAL
  else if 45 ≤ s then .HIGH
  else if 20 ≤ s then .MEDIUM
  else if 0 < s then .LOW
  else .UNKNOWN

/-- `calculate_severity`: score the record and return it with the
`severity`, `severity_score` and `severity_reasons` fields set. -/
def calculate_severity (now : ℤ) (parse : List Char → Option ℤ) (r : IOCData) :
    IOCData :=
  let sr := severityScoreReasons now parse r
  { r with severity := some (severityLevelOf sr.1),
           severity_score := some sr.1,
           severity_reasons := some sr.2 }

/-- `calculate_batch_severity`: the accumulating loop over the input list. -/
def calculate_batch_severity (now : ℤ) (parse : List Char → Option ℤ) :
    List IOCData → List IOCData
  | [] => []
  | ioc :: rest => calculate_severity now parse ioc :: calculate_batch_severity now parse rest

/-- A Python dict field with its three possible states: key absent, key
present holding `None`, or key present holding a proper value.  `IOCData`
identifies the first two; this type separates them, because `.get(key,
default)` substitutes the default only for an absent key — a present `None`
flows on and can make the scorer raise. -/
inductive PyField (α : Type) where
  | absent
  | pyNone
  | val (a : α)
deriving DecidableEq

/-- The enriched IOC dict passed to `calculate_severity`, with every field
the scorer reads modelled as a `PyField` so that present-but-`None` values
(which the repository's own feed loops produce, e.g. `"malware_family":
payload.get("signature")` in `direct_ingest.py` line 333) are representable. -/
structure PyIOCData where
  ioc_type : PyField String := .absent
  sources : PyField (List (String × SourceEntry)) := .absent
  vt_detection_rate : PyField ℚ := .absent
  vt_detections : PyField PyVal := .absent
  malware_family : PyField (List Char) := .absent
  context : PyField (List Char) := .absent
  threat_type : PyField (List Char) := .absent
  description : PyField (List Char) := .absent
  first_seen : PyField FirstSeen := .absent
  source : PyField String := .absent
  url_status : PyField (List Char) := .absent
  threat : PyField (List Char) := .absent
deriving DecidableEq

/-- Reading a text field the scorer lower-cases (`ioc_data.get(key,
'').lower()`): an absent key defaults to `''` and never raises, a present
`None` raises `AttributeError` on `.lower()` (modelled as `none`), a string
passes through. -/
def pyStrField : PyField (List Char) → Option (Option (List Char))
  | .absent => some none
  | .pyNone => none
  | .val s => some (some s)

/-- `calculate_severity` with Python's exception semantics over `PyIOCData`:
the result is `none` exactly when the source raises.  Each monadic bind is a
line where a present-`None` value raises — `None > 0.8` at line 69
(TypeError), `None.lower()` at lines 80 and 106-108 (AttributeError),
membership/`len` on a `None` sources mapping at lines 93/148/155
(TypeError), and `.lower()` at lines 136/142 reached only when the source is
`'urlhaus'`.  The rule blocks themselves are the same block functions used
by `severityScoreReasons`. -/
def calculate_severity_py (now : ℤ) (parse : List Char → Option ℤ)
    (r : PyIOCData) : Option (SeverityLevel × ℕ × List Reason) := do
  let ty : String := match r.ioc_type with
    | .absent => "unknown"
    | .pyNone => "unknown"
    | .val s => s
  let dets : Option PyVal := match r.vt_detections with
    | .absent => none
    | .pyNone => some (.prim .pNone)
    | .val v => some v
  let rate ← (match r.vt_detection_rate with
    | .absent => some (0 : ℚ)
    | .pyNone => none
    | .val q => some q)
  let mf ← pyStrField r.malware_family
  let srcs ← (match r.sources with
    | .absent => some []
    | .pyNone => none
    | .val l => some l)
  let ctx ← pyStrField r.context
  let tty ← pyStrField r.threat_type
  let desc ← pyStrField r.description
  let srcOpt : Option String := match r.source with
    | .val s => some s
    | _ => none
  let us ← (if srcOpt = some "urlhaus" then pyStrField r.url_status else some none)
  let th ← (if srcOpt = some "urlhaus" then pyStrField r.threat else some none)
  let fs : Option FirstSeen := match r.first_seen with
    | .val f => some f
    | _ => none
  let b1 := vtRateBlock (some rate) dets
  let b2 := malwareBlock mf
  let b3 := abuseBlock ty srcs
  let b4 := threatTextBlock ctx tty desc
  let b5 := recencyBlock now parse fs
  let b6 := urlhausBlock srcOpt us th
  let b7 := vtRepBlock srcs
  let b8 := numSourcesBlock srcs
  let score := b1.1 + b2.1 + b3.1 + b4.1 + b5.1 + b6.1 + b7.1 + b8.1
  some (severityLevelOf score, score,
    b1.2 ++ b2.2 ++ b3.2 ++ b4.2 ++ b5.2 ++ b6.2 ++ b7.2 ++ b8.2)

/-- The merged record reaching the scorer for a URLhaus payload whose
`signature` is null: `ingest_urlhaus_payloads` sets `"malware_family":
payload.get("signature")` (`direct_ingest.py` lines 333/348), and hash
enrichment without VirusTotal data contributes only an empty `sources`
shell (`enricher.py` lines 96-101). -/
def urlhausNullSignaturePayload : PyIOCData :=
  { ioc_type := .val "sha256",
    source := .val "URLhaus",
    description := .val (strL "URLhaus malware payload - unknown"),
    malware_family := .pyNone,
    sources := .val [] }

/-- Update operation used to state monotonicity in the AbuseIPDB confidence
score: raise the `abuse_confidence_score` of the `abuseipdb` sub-document
(if present) while changing nothing else in the mapping. -/
def setAbuseScore (srcs : List (String × SourceEntry)) (a : ℤ) :
    List (String × SourceEntry) :=
  srcs.map (fun kv =>
    if kv.1 = "abuseipdb" then (kv.1, { kv.2 with abuse_confidence_score := some a })
    else kv)

/-! ## Direct ingestion (`direct_ingest.py`) -/

/-- The detection-count normalization of `store_ioc` (lines 105-123), the
part inside the `try`: `none` models a raised exception reaching the
`except` handler. -/
def normalizeVtTry (det : PyVal) (rate : Option ℚ) : Option (PyVal × ℚ) :=
  let fallThrough :=
    if rate = none then
      some ((if pyTruthy det then det else .prim (.pStr (strL "0/0"))), (0 : ℚ))
    else some (det, rate.getD 0)
  match det with
  | .prim (.pStr s) =>
    if pyTruthy (.prim (.pStr s)) ∧ s.contains '/' then
      let parts := s.splitOn '/'
      match pyIntParse (parts.getD 0 []), pyIntParse (parts.getD 1 []) with
      | some d, some t1 =>
        let t := if 0 < t1 then t1 else 0
        some (.prim (.pStr s), if 0 < t then (d : ℚ) / (t : ℚ) else 0)
      | _, _ => none
    else fallThrough
  | .plist [a, b] =>
    match pyPrimToInt a, pyPrimToInt b with
    | some d, some t =>
      some (.prim (.pStr (intChars d ++ '/' :: intChars t)),
            if 0 < t then (d : ℚ) / (t : ℚ) else 0)
    | _, _ => none
  | _ => fallThrough

/-- Lines 105-123 of `store_ioc` including the `except` handler: canonical
`(vt_detections, vt_detection_rate)` pair, never an exception. -/
def normalizeVt (det : PyVal) (rate : Option ℚ) : PyVal × ℚ :=
  (normalizeVtTry det rate).getD (.prim (.pStr (strL "0/0")), 0)

/-- Lines 125-128 of `store_ioc`: backfill `abuse_score` from
`sources.abuseipdb.abuse_confidence_score` when the merged value is falsy
(`not abuse_score` is true for both `None` and `0`). -/
def resolveAbuseScore (merged : Option ℤ) (srcs : List (String × SourceEntry)) :
    Option ℤ :=
  if merged = none ∨ merged = some 0 then
    (List.lookup "abuseipdb" srcs).bind (fun e => e.abuse_confidence_score)
  else merged

/-- Line 131 of `store_ioc`: `or`-chain preferring the merged indicator-level
threat actor, then the raw indicator's, then the pulse author (Python `or`
skips falsy values, i.e. `None` and the empty string). -/
def resolveThreatActor (mergedTA iocTA pulseAuthor : Option String) : Option String :=
  let truthyOr := fun (a b : Option String) =>
    match a with
    | some s => if s = "" then b else some s
    | none => b
  truthyOr mergedTA (truthyOr iocTA pulseAuthor)

/-- `category_map` of `store_ioc` (lines 99-102). -/
def categoryMap : List (String × String) :=
  [("md5", "filehash"), ("sha1", "filehash"), ("sha256", "filehash"),
   ("ipv4", "ip"), ("domain", "domain"), ("url", "url"),
   ("cve", "cve"), ("email", "email")]

/-- `category_map.get(ioc_data.get('ioc_type'), 'other')`. -/
def iocCategoryOf (ty : Option String) : String :=
  ((ty.bind (fun t => List.lookup t categoryMap))).getD "other"

/-- A raw IOC handed to `store_ioc` by the feed-level ingestion loops.  Only
the fields `store_ioc` itself reads are named; the feed loops never set the
enrichment fields. -/
structure IngestIOC where
  ioc_value : String
  ioc_type : Option String := none
  threat_actor : Option String := none
deriving DecidableEq

/-- The enrichment output merged over the raw IOC (`{**ioc_data,
**enriched_data}`).  The enricher (`enricher.py`) always sets `ioc_value` to
the value it was handed, so that key is pinned to the raw IOC's value and
only the remaining merged fields vary. -/
structure EnrichData where
  vt_detections : PyVal := .prim .pNone
  vt_detection_rate : Option ℚ := none
  abuse_score : Option ℤ := none
  sources : List (String × SourceEntry) := []
  threat_actor : Option String := none
  pulse_author : Option String := none
deriving DecidableEq

/-- View of the merged raw+enriched dict as the scorer's input record. -/
def mergedRecord (x : IngestIOC) (e : EnrichData) : IOCData :=
  { ioc_type := x.ioc_type,
    sources := e.sources,
    vt_detection_rate := e.vt_detection_rate,
    vt_detections := some e.vt_detections }

/-- The document stored by `store_ioc` (`final_ioc`, lines 133-146), with
its normalized fields. -/
structure FinalRecord where
  ioc_value : String
  correlation_id : ℕ
  ioc_category : String
  abuse_score : Option ℤ
  vt_detections : PyVal
  vt_detection_rate : ℚ
  threat_actor : Option String
  severity : Option SeverityLevel
  severity_score : Option ℕ
  first_seen : ℤ
  last_updated : ℤ
deriving DecidableEq

/-- Build `final_ioc` from the raw IOC and its enrichment (lines 89-146):
merge, score, derive category, normalize detections, backfill `abuse_score`,
resolve `threat_actor`, stamp correlation id and timestamps. -/
def mkFinalRecord (now : ℤ) (parse : List Char → Option ℤ) (cid : ℕ)
    (x : IngestIOC) (e : EnrichData) : FinalRecord :=
  let scored := calculate_severity now parse (mergedRecord x e)
  let vt := normalizeVt e.vt_detections e.vt_detection_rate
  { ioc_value := x.ioc_value,
    correlation_id := cid,
    ioc_category := iocCategoryOf x.ioc_type,
    abuse_score := resolveAbuseScore e.abuse_score e.sources,
    vt_detections := vt.1,
    vt_detection_rate := vt.2,
    threat_actor := resolveThreatActor e.threat_actor x.threat_actor e.pulse_author,
    severity := scored.severity,
    severity_score := scored.severity_score,
    first_seen := now,
    last_updated := now }

/-- `store_ioc` over an explicit store state (the `iocs` collection as a list
of documents): existence check by `ioc_value`, then enrich (`enr` abstracts
the enricher's network side), score, normalize and insert.  Returns the
`bool` result and the new store state. -/
def store_ioc (now : ℤ) (parse : List Char → Option ℤ) (cid : ℕ)
    (enr : IngestIOC → EnrichData) (db : List FinalRecord) (x : IngestIOC) :
    Bool × List FinalRecord :=
  if db.any (fun r => r.ioc_value = x.ioc_value) then (false, db)
  else (true, db ++ [mkFinalRecord now parse cid x (enr x)])

/-- Number of stored documents with a given indicator value. -/
def countValue (db : List FinalRecord) (v : String) : ℕ :=
  (db.filter (fun r => r.ioc_value = v)).length

/-! ## API health monitor (`api_validator.py`) -/

/-- `ok_count`: how many sources report status `'ok'`. -/
def okCount (hs : List (String × String)) : ℕ :=
  (hs.filter (fun kv => kv.2 = "ok")).length

/-- `total_configured`: how many sources report a status other than
`'not_configured'`. -/
def totalConfigured (hs : List (String × String)) : ℕ :=
  (hs.filter (fun kv => kv.2 ≠ "not_configured")).length

/-- `get_overall_status`: `health_status` is the mapping name ↦ status
string (`.values()` only reads each entry's `'status'` key); `ok_count /
total` uses Python float division, modelled exactly in `ℚ`. -/
def get_overall_status (hs : List (String × String)) : String :=
  if okCount hs = totalConfigured hs ∧ 0 < totalConfigured hs then "healthy"
  else if (totalConfigured hs : ℚ) / 2 ≤ (okCount hs : ℚ) then "degraded"
  else "unhealthy"

/-! ## Feed fetchers (`threat_feeds.py`)

Each fetcher's network interaction is abstracted as a `FeedResp` value: the
parsed item list on HTTP 200 with a successful query status, or one of the
failure shapes the code branches on.  The local post-processing is the part
embedded from the source. -/

/-- Upstream outcome for a batch-fetch call. -/
inductive FeedResp (α : Type) where
  | ok (items : List α)
  | badStatus
  | queryFail
  | exn
deriving DecidableEq

/-- `fetch_otx_pulses` (lines 31-62): no key ⇒ `[]`; on HTTP 200 it returns
`data.get('results', [])` as-is; any error path returns `[]`. -/
def fetch_otx_pulses {α : Type} (key : Option String) (_limit : ℕ)
    (resp : FeedResp α) : List α :=
  match key with
  | none => []
  | some _ =>
    match resp with
    | .ok results => results
    | _ => []

/-- `fetch_urlhaus_urls` (lines 64-97): on success the local result is
`data.get('urls', [])[:limit]`; any error path returns `[]`. -/
def fetch_urlhaus_urls {α : Type} (limit : ℕ) (resp : FeedResp α) : List α :=
  match resp with
  | .ok urls => urls.take limit
  | _ => []

/-- `fetch_urlhaus_payloads` (lines 99-131): on success the local result is
`data.get('payloads', [])[:limit]`; any error path returns `[]`. -/
def fetch_urlhaus_payloads {α : Type} (limit : ℕ) (resp : FeedResp α) : List α :=
  match resp with
  | .ok payloads => payloads.take limit
  | _ => []

/-! ## Spec-side definitions used to compare code behaviour with the
specification's wording -/

/-- Modelled from the spec's wording of the tier thresholds: CRITICAL for
score ≥ 70, HIGH for 45 ≤ score < 70, MEDIUM for 20 ≤ score < 45, LOW for
0 < score < 20, UNKNOWN for score = 0. -/
def specStepTier (score : ℕ) : SeverityLevel :=
  if 70 ≤ score then .CRITICAL
  else if 45 ≤ score ∧ score < 70 then .HIGH
  else if 20 ≤ score ∧ score < 45 then .MEDIUM
  else if 0 < score ∧ score < 20 then .LOW
  else .UNKNOWN

/-- Spec-side test for an address in the IPv4 multicast range
224.0.0.0-239.255.255.255: first dotted octet between 224 and 239. -/
def multicastFirstOctet (ip : List Char) : Bool :=
  match pyIntParse (ip.takeWhile (· ≠ '.')) with
  | some n => decide (224 ≤ n) && decide (n ≤ 239)
  | none => false

/-- Characters after the first `://` separator (empty when there is none). -/
def afterSep : List Char → List Char
  | [] => []
  | c :: rest =>
    if (strL "://").isPrefixOf (c :: rest) then (c :: rest).drop 3
    else afterSep rest

/-- Host of a URL, for stating the claim: the characters between the first
`://` and the next `/` (empty when the URL has no scheme separator). -/
def hostOf (u : List Char) : List Char :=
  (afterSep u).takeWhile (· ≠ '/')

/-! ## Claim theorems -/

/-- C1: for every enriched indicator record, the severity tier returned by
`calculate_severity` is the step function of the computed score: CRITICAL if
score ≥ 70, HIGH if 45 ≤ score < 70, MEDIUM if 20 ≤ score < 45, LOW if
0 < score < 20, UNKNOWN if score = 0. -/
theorem claim_C1 (now : ℤ) (parse : List Char → Option ℤ) (r : IOCData) :
    (calculate_severity now parse r).severity_score =
      some (severityScoreReasons now parse r).1 ∧
    (calculate_severity now parse r).severity =
      some (specStepTier (severityScoreReasons now parse r).1) := by
  refine ⟨rfl, ?_⟩
  show some (severityLevelOf _) = some (specStepTier _)
  congr 1
  unfold severityLevelOf specStepTier
  split_ifs <;> first | rfl | omega

/-- C9: in `store_ioc` normalization an `abuse_score` of 0 is treated the
same as an absent one: both are replaced by
`sources.abuseipdb.abuse_confidence_score`, which is `none` when the
sub-document or the field is missing, so a zero score is overwritten. -/
theorem claim_C9 (srcs : List (String × SourceEntry)) :
    resolveAbuseScore (some 0) srcs = resolveAbuseScore none srcs ∧
    resolveAbuseScore none srcs =
      (List.lookup "abuseipdb" srcs).bind (fun e => e.abuse_confidence_score) := by
  simp [resolveAbuseScore]

/-- C8 counterexample: the OTX pulse fetcher does not cap its local result
set; with a configured key, a requested limit of 1 and an upstream response
holding two pulses, it returns both. -/
theorem claim_C8_counterexample :
    ¬ ((fetch_otx_pulses (α := ℕ) (some "k") 1 (.ok [0, 1])).length ≤ 1) := by
  decide

/-- C8 amended: the URLhaus URL and payload fetchers cap their local result
set to the requested limit even when the upstream returns more; the OTX
pulse fetcher instead forwards the limit upstream and returns the upstream
result list uncapped (empty without a configured key or on any error). -/
theorem claim_C8_amended :
    (∀ (α : Type) (limit : ℕ) (resp : FeedResp α),
       (fetch_urlhaus_urls limit resp).length ≤ limit) ∧
    (∀ (α : Type) (limit : ℕ) (resp : FeedResp α),
       (fetch_urlhaus_payloads limit resp).length ≤ limit) ∧
    (∀ (α : Type) (key : String) (limit : ℕ) (items : List α),
       fetch_otx_pulses (some key) limit (.ok items) = items) := by
  refine ⟨fun α limit resp => ?_, fun α limit resp => ?_, fun α key limit items => rfl⟩
  · cases resp <;> simp [fetch_urlhaus_urls]
  · cases resp <;> simp [fetch_urlhaus_payloads]

/-- Unfolding `okCount` over a cons cell. -/
lemma okCount_cons (kv : String × String) (t : List (String × String)) :
    okCount (kv :: t) = (if kv.2 = "ok" then 1 else 0) + okCount t := by
  by_cases h : kv.2 = "ok" <;> simp [okCount, List.filter_cons, h] <;> omega

/-- Unfolding `totalConfigured` over a cons cell. -/
lemma totalConfigured_cons (kv : String × String) (t : List (String × String)) :
    totalConfigured (kv :: t) =
      (if kv.2 = "not_configured" then 0 else 1) + totalConfigured t := by
  by_cases h : kv.2 = "not_configured" <;>
    simp [totalConfigured, List.filter_cons, h] <;> omega

/-- Every entry counted as `ok` is also counted as configured. -/
lemma okCount_le_totalConfigured (hs : List (String × String)) :
    okCount hs ≤ totalConfigured hs := by
  induction hs with
  | nil => simp [okCount, totalConfigured]
  | cons kv t ih =>
    rw [okCount_cons, totalConfigured_cons]
    by_cases hok : kv.2 = "ok"
    · have hnc : ¬ kv.2 = "not_configured" := by rw [hok]; decide
      rw [if_pos hok, if_neg hnc]
      omega
    · rw [if_neg hok]
      split <;> omega

/-- The `ok` count equals the configured count exactly when every configured
entry reports `ok`. -/
lemma okCount_eq_totalConfigured_iff (hs : List (String × String)) :
    okCount hs = totalConfigured hs ↔
      ∀ kv ∈ hs, kv.2 ≠ "not_configured" → kv.2 = "ok" := by
  induction hs with
  | nil => simp [okCount, totalConfigured]
  | cons kv t ih =>
    rw [okCount_cons, totalConfigured_cons]
    have hle := okCount_le_totalConfigured t
    by_cases hok : kv.2 = "ok"
    · have hnc : ¬ kv.2 = "not_configured" := by rw [hok]; decide
      rw [if_pos hok, if_neg hnc]
      simp only [List.mem_cons]
      constructor
      · intro h kv' hkv'
        rcases hkv' with hkv' | hkv'
        · subst hkv'
          intro _
          exact hok
        · exact (ih.mp (by omega)) kv' hkv'
      · intro h
        have : okCount t = totalConfigured t :=
          ih.mpr (fun kv' hkv' => h kv' (Or.inr hkv'))
        omega
    · by_cases hnc : kv.2 = "not_configured"
      · rw [if_neg hok, if_pos hnc]
        simp only [List.mem_cons]
        constructor
        · intro h kv' hkv'
          rcases hkv' with hkv' | hkv'
          · subst hkv'
            intro hx
            exact absurd hnc hx
          · exact (ih.mp (by omega)) kv' hkv'
        · intro h
          have : okCount t = totalConfigured t :=
            ih.mpr (fun kv' hkv' => h kv' (Or.inr hkv'))
          omega
      · rw [if_neg hok, if_neg hnc]
        constructor
        · intro h
          omega
        · intro h
          exact absurd (h kv (List.mem_cons_self kv t) hnc) hok

/-- C7 counterexample: a health mapping whose only source is
`not_configured` has every configured source (vacuously) reporting `ok`,
yet the overall status is `degraded`, not `healthy`. -/
theorem claim_C7_counterexample :
    ([(("otx" : String), ("not_configured" : String))].all
        (fun kv => kv.2 == "not_configured" || kv.2 == "ok")) = true ∧
    get_overall_status [("otx", "not_configured")] = "degraded" ∧
    get_overall_status [("otx", "not_configured")] ≠ "healthy" := by
  have hok : okCount [("otx", "not_configured")] = 0 := rfl
  have htc : totalConfigured [("otx", "not_configured")] = 0 := rfl
  have hd : get_overall_status [("otx", "not_configured")] = "degraded" := by
    unfold get_overall_status
    rw [hok, htc]
    norm_num
  refine ⟨by decide, hd, ?_⟩
  rw [hd]
  decide

/-- C7 amended: `get_overall_status` returns `healthy` exactly when all
configured sources report `ok` AND at least one source is configured;
`degraded` when it is not healthy but at least half of the configured
sources report `ok` (in particular when no source is configured at all);
and `unhealthy` otherwise. -/
theorem claim_C7_amended (hs : List (String × String)) :
    (get_overall_status hs = "healthy" ↔
       ((∀ kv ∈ hs, kv.2 ≠ "not_configured" → kv.2 = "ok") ∧
        0 < totalConfigured hs)) ∧
    (get_overall_status hs = "degraded" ↔
       (¬ ((∀ kv ∈ hs, kv.2 ≠ "not_configured" → kv.2 = "ok") ∧
           0 < totalConfigured hs) ∧
        totalConfigured hs ≤ 2 * okCount hs)) ∧
    (get_overall_status hs = "unhealthy" ↔
       (¬ ((∀ kv ∈ hs, kv.2 ≠ "not_configured" → kv.2 = "ok") ∧
           0 < totalConfigured hs) ∧
        ¬ totalConfigured hs ≤ 2 * okCount hs)) := by
  have hiff := okCount_eq_totalConfigured_iff hs
  unfold get_overall_status
  set ok := okCount hs with hok
  set total := totalConfigured hs with htotal
  have hdiv : ((total : ℚ) / 2 ≤ (ok : ℚ)) ↔ total ≤ 2 * ok := by
    rw [div_le_iff (by norm_num : (0 : ℚ) < 2)]
    constructor
    · intro h
      have : (total : ℚ) ≤ (2 * ok : ℕ) := by push_cast; linarith
      exact_mod_cast this
    · intro h
      have : ((total : ℕ) : ℚ) ≤ ((2 * ok : ℕ) : ℚ) := by exact_mod_cast h
      push_cast at this
      linarith
  split_ifs with h1 h2
  · refine ⟨?_, ?_, ?_⟩
    · simp only [true_iff, eq_self_iff_true]
      exact ⟨hiff.mp h1.1, h1.2⟩
    · constructor
      · intro h
        exact absurd h (by decide)
      · intro h
        exact absurd ⟨hiff.mp h1.1, h1.2⟩ h.1
    · constructor
      · intro h
        exact absurd h (by decide)
      · intro h
        exact absurd ⟨hiff.mp h1.1, h1.2⟩ h.1
  · have hnot : ¬ ((∀ kv ∈ hs, kv.2 ≠ "not_configured" → kv.2 = "ok") ∧ 0 < total) := by
      intro hc
      exact h1 ⟨hiff.mpr hc.1, hc.2⟩
    refine ⟨?_, ?_, ?_⟩
    · constructor
      · intro h
        exact absurd h (by decide)
      · intro h
        exact absurd h hnot
    · simp only [true_iff, eq_self_iff_true]
      exact ⟨hnot, hdiv.mp h2⟩
    · constructor
      · intro h
        exact absurd h (by decide)
      · intro h
        exact absurd (hdiv.mp h2) h.2
  · have hnot : ¬ ((∀ kv ∈ hs, kv.2 ≠ "not_configured" → kv.2 = "ok") ∧ 0 < total) := by
      intro hc
      exact h1 ⟨hiff.mpr hc.1, hc.2⟩
    refine ⟨?_, ?_, ?_⟩
    · constructor
      · intro h
        exact absurd h (by decide)
      · intro h
        exact absurd h hnot
    · constructor
      · intro h
        exact absurd h (by decide)
      · intro h
        exact absurd h.2 (fun hx => h2 (hdiv.mpr hx))
    · simp only [true_iff, eq_self_iff_true]
      exact ⟨hnot, fun hx => h2 (hdiv.mpr hx)⟩

/-- C7 amended witness: a concrete mapping with one `ok` source and one
`not_configured` source is reported `healthy`. -/
theorem claim_C7_amended_witness :
    get_overall_status [("urlhaus", "ok"), ("otx", "not_configured")] = "healthy" :=
  (claim_C7_amended [("urlhaus", "ok"), ("otx", "not_configured")]).1.mpr
    ⟨by decide, by decide⟩

/-- C6 counterexample: the malformed detection value `"abc"` (no `/`, so it
is neither a well-formed `"d/t"` string nor a pair) does not normalize to
`"0/0"`: with no pre-existing rate the code keeps `"abc"` and only defaults
the rate to 0.0, because the fall-through branch keeps any truthy value. -/
theorem claim_C6_counterexample :
    normalizeVt (.prim (.pStr (strL "abc"))) none = (.prim (.pStr (strL "abc")), 0) ∧
    normalizeVt (.prim (.pStr (strL "abc"))) none ≠ (.prim (.pStr (strL "0/0")), 0) := by
  exact ⟨rfl, fun h => absurd (congrArg Prod.fst h) (by decide)⟩

/-- C6 amended: the detection string `"12/34"` round-trips (rate 12/34,
re-rendered unchanged) and a two-element integer pair `(d, t)` with `t > 0`
renders as `"d/t"` with rate `d/t`; malformed input never raises, but only
input whose parsing raises (non-integer parts around a `/`, or a pair with a
non-integer member) normalizes to `"0/0"`/0.0 — other malformed input keeps
`vt_detections` unchanged (falsy values default to `"0/0"`) and defaults the
rate to 0.0 only when no rate was present. -/
theorem claim_C6_amended :
    (∀ r : Option ℚ, normalizeVt (.prim (.pStr (strL "12/34"))) r =
       (.prim (.pStr (strL "12/34")), (12 : ℚ)/34)) ∧
    (∀ (a b : ℤ) (r : Option ℚ), 0 < b →
       normalizeVt (.plist [.pInt a, .pInt b]) r =
         (.prim (.pStr (intChars a ++ '/' :: intChars b)), (a : ℚ)/(b : ℚ))) ∧
    (∀ r : Option ℚ, normalizeVt (.prim (.pStr (strL "12/xy"))) r =
       (.prim (.pStr (strL "0/0")), 0)) ∧
    (∀ r : Option ℚ, normalizeVt (.plist [.pStr (strL "x"), .pInt 3]) r =
       (.prim (.pStr (strL "0/0")), 0)) ∧
    normalizeVt (.prim .pNone) none = (.prim (.pStr (strL "0/0")), 0) ∧
    normalizeVt (.prim (.pStr (strL "abc"))) none = (.prim (.pStr (strL "abc")), 0) ∧
    (∀ q : ℚ, normalizeVt (.prim (.pStr (strL "abc"))) (some q) =
       (.prim (.pStr (strL "abc")), q)) := by
  refine ⟨fun r => rfl, fun a b r h => ?_, fun r => rfl, fun r => rfl, rfl, rfl,
    fun q => rfl⟩
  simp [normalizeVt, normalizeVtTry, pyPrimToInt, h]

/-- C6 amended witness: the pair clause at the concrete input `(12, 34)`. -/
theorem claim_C6_amended_witness :
    normalizeVt (.plist [.pInt 12, .pInt 34]) none =
      (.prim (.pStr (strL "12/34")), (12 : ℚ)/(34 : ℚ)) :=
  claim_C6_amended.2.1 12 34 none (by norm_num)

/-- An absent detection rate defaults to 0, below every band. -/
lemma vtRateBlock_none (dets : Option PyVal) : vtRateBlock none dets = (0, []) := by
  unfold vtRateBlock
  norm_num

/-- The all-absent record accumulates no score and no reasons. -/
lemma severityScoreReasons_empty (now : ℤ) (parse : List Char → Option ℤ) :
    severityScoreReasons now parse {} = (0, []) := by
  simp only [severityScoreReasons, vtRateBlock_none]
  rfl

/-- A zero detection rate is below every band. -/
lemma vtRateBlock_zero (dets : Option PyVal) : vtRateBlock (some 0) dets = (0, []) := by
  unfold vtRateBlock
  norm_num

/-- C2 (code bug): the claim's safe-default half holds in the code — a
missing (absent) signal key contributes zero, and an unsupported indicator
type is a no-op for the type-guarded rule — but the never-raises half is
false: when a signal key is present holding `None`, `.get(key, default)`
does not substitute the default, and `calculate_severity` raises
(`AttributeError` at `severity_scorer.py` line 80 on
`None.lower()`).  The repository's own feed loop produces such records:
`ingest_urlhaus_payloads` stores `"malware_family":
payload.get("signature")`, which is `None` for a null URLhaus signature —
that record evaluates to `none` (an exception), while the same record with
the key absent, and the all-absent record, return normally with score 0 and
tier UNKNOWN. -/
theorem claim_C2 :
    (∀ (now : ℤ) (parse : List Char → Option ℤ),
       calculate_severity_py now parse urlhausNullSignaturePayload = none) ∧
    (∀ (now : ℤ) (parse : List Char → Option ℤ),
       calculate_severity_py now parse
         { urlhausNullSignaturePayload with malware_family := .absent } =
         some (.UNKNOWN, 0, [])) ∧
    (∀ (now : ℤ) (parse : List Char → Option ℤ),
       calculate_severity_py now parse {} = some (.UNKNOWN, 0, [])) ∧
    (∀ dets : Option PyVal, vtRateBlock none dets = (0, [])) ∧
    malwareBlock none = (0, []) ∧
    (∀ ty : String, abuseBlock ty [] = (0, [])) ∧
    threatTextBlock none none none = (0, []) ∧
    (∀ (now : ℤ) (parse : List Char → Option ℤ), recencyBlock now parse none = (0, [])) ∧
    (∀ us threat : Option (List Char), urlhausBlock none us threat = (0, [])) ∧
    vtRepBlock [] = (0, []) ∧
    numSourcesBlock [] = (0, []) ∧
    abuseBlock "sha256" [("abuseipdb", { abuse_confidence_score := some 95 })] = (0, []) ∧
    (∀ (now : ℤ) (parse : List Char → Option ℤ),
       calculate_severity now parse {} =
         { severity := some .UNKNOWN, severity_score := some 0,
           severity_reasons := some [] }) := by
  refine ⟨fun now parse => rfl, fun now parse => ?_, fun now parse => ?_,
    vtRateBlock_none, rfl, fun ty => ?_, by decide, fun now parse => rfl,
    fun us threat => rfl, rfl, rfl, by decide, fun now parse => ?_⟩
  · simp only [calculate_severity_py, pyStrField, urlhausNullSignaturePayload,
      bind, Option.bind]
    rw [vtRateBlock_zero]
    have h5 : recencyBlock now parse none = (0, []) := rfl
    rw [h5]
    decide
  · simp only [calculate_severity_py, pyStrField, bind, Option.bind]
    rw [vtRateBlock_zero]
    have h5 : recencyBlock now parse none = (0, []) := rfl
    rw [h5]
    decide
  · unfold abuseBlock
    split <;> rfl
  · simp only [calculate_severity, severityScoreReasons_empty]
    rfl

/-- C10: `calculate_severity` returns its input record with exactly the
three fields `severity`, `severity_score` and `severity_reasons` set; every
other field keeps its original value, and `calculate_batch_severity` maps
the same function over the input list, one output per input, in order. -/
theorem claim_C10 (now : ℤ) (parse : List Char → Option ℤ) (r : IOCData) :
    ((calculate_severity now parse r).ioc_type = r.ioc_type ∧
     (calculate_severity now parse r).sources = r.sources ∧
     (calculate_severity now parse r).vt_detection_rate = r.vt_detection_rate ∧
     (calculate_severity now parse r).vt_detections = r.vt_detections ∧
     (calculate_severity now parse r).malware_family = r.malware_family ∧
     (calculate_severity now parse r).context = r.context ∧
     (calculate_severity now parse r).threat_type = r.threat_type ∧
     (calculate_severity now parse r).description = r.description ∧
     (calculate_severity now parse r).first_seen = r.first_seen ∧
     (calculate_severity now parse r).source = r.source ∧
     (calculate_severity now parse r).url_status = r.url_status ∧
     (calculate_severity now parse r).threat = r.threat ∧
     (calculate_severity now parse r).extras = r.extras) ∧
    ((calculate_severity now parse r).severity.isSome = true ∧
     (calculate_severity now parse r).severity_score.isSome = true ∧
     (calculate_severity now parse r).severity_reasons.isSome = true) ∧
    (∀ iocs : List IOCData,
       calculate_batch_severity now parse iocs =
         iocs.map (calculate_severity now parse)) := by
  refine ⟨⟨rfl, rfl, rfl, rfl, rfl, rfl, rfl, rfl, rfl, rfl, rfl, rfl, rfl⟩,
    ⟨rfl, rfl, rfl⟩, fun iocs => ?_⟩
  induction iocs with
  | nil => rfl
  | cons ioc rest ih => simp [calculate_batch_severity, ih]

/-- After any `store_ioc` call, the store holds a record with the call's
indicator value (either it was already there, or it was just inserted). -/
lemma store_ioc_snd_has_value (now : ℤ) (parse : List Char → Option ℤ) (cid : ℕ)
    (enr : IngestIOC → EnrichData) (db : List FinalRecord) (x : IngestIOC) :
    ((store_ioc now parse cid enr db x).2).any
      (fun r => r.ioc_value = x.ioc_value) = true := by
  unfold store_ioc
  by_cases h : db.any (fun r => r.ioc_value = x.ioc_value) = true
  · rw [if_pos h]
    exact h
  · rw [if_neg h]
    simp [List.any_append, mkFinalRecord]

/-- `countValue` distributes over append. -/
lemma countValue_append (a b : List FinalRecord) (v : String) :
    countValue (a ++ b) v = countValue a v + countValue b v := by
  simp [countValue, List.filter_append]

/-- A store with no record for `v` fails the existence check for `v`. -/
lemma countValue_zero_no_match (db : List FinalRecord) (v : String)
    (h : countValue db v = 0) :
    db.any (fun r => r.ioc_value = v) = false := by
  cases hany : db.any (fun r => r.ioc_value = v) with
  | false => rfl
  | true =>
    obtain ⟨r, hr, hrv⟩ := List.any_eq_true.mp hany
    have hmem : r ∈ db.filter (fun r => r.ioc_value = v) :=
      List.mem_filter.mpr ⟨hr, hrv⟩
    have hlen : 0 < (db.filter (fun r => r.ioc_value = v)).length :=
      List.length_pos.mpr (List.ne_nil_of_mem hmem)
    exact absurd h (by unfold countValue at *; omega)

/-- C5: `store_ioc` is idempotent on indicator value: with a record of the
same `ioc_value` already stored, it returns `false` and inserts nothing;
running it twice with the same value returns `false` the second time,
leaves the store of the first call unchanged (no record modified), and, if
the value was absent initially, exactly one record with that value exists
afterwards. -/
theorem claim_C5 :
    (∀ (now : ℤ) (parse : List Char → Option ℤ) (cid : ℕ)
       (enr : IngestIOC → EnrichData) (db : List FinalRecord) (x : IngestIOC),
       (∃ r ∈ db, r.ioc_value = x.ioc_value) →
       store_ioc now parse cid enr db x = (false, db)) ∧
    (∀ (now : ℤ) (parse : List Char → Option ℤ) (cid : ℕ)
       (enr : IngestIOC → EnrichData) (now' : ℤ) (parse' : List Char → Option ℤ)
       (cid' : ℕ) (db : List FinalRecord) (x : IngestIOC),
       store_ioc now' parse' cid' enr (store_ioc now parse cid enr db x).2 x =
         (false, (store_ioc now parse cid enr db x).2)) ∧
    (∀ (now : ℤ) (parse : List Char → Option ℤ) (cid : ℕ)
       (enr : IngestIOC → EnrichData) (now' : ℤ) (parse' : List Char → Option ℤ)
       (cid' : ℕ) (db : List FinalRecord) (x : IngestIOC),
       countValue db x.ioc_value = 0 →
       countValue
         (store_ioc now' parse' cid' enr (store_ioc now parse cid enr db x).2 x).2
         x.ioc_value = 1) := by
  have hdup : ∀ (now : ℤ) (parse : List Char → Option ℤ) (cid : ℕ)
      (enr : IngestIOC → EnrichData) (db : List FinalRecord) (x : IngestIOC),
      (∃ r ∈ db, r.ioc_value = x.ioc_value) →
      store_ioc now parse cid enr db x = (false, db) := by
    intro now parse cid enr db x ⟨r, hr, hrv⟩
    unfold store_ioc
    rw [if_pos (List.any_eq_true.mpr ⟨r, hr, by simp [hrv]⟩)]
  have hsecond : ∀ (now : ℤ) (parse : List Char → Option ℤ) (cid : ℕ)
      (enr : IngestIOC → EnrichData) (now' : ℤ) (parse' : List Char → Option ℤ)
      (cid' : ℕ) (db : List FinalRecord) (x : IngestIOC),
      store_ioc now' parse' cid' enr (store_ioc now parse cid enr db x).2 x =
        (false, (store_ioc now parse cid enr db x).2) := by
    intro now parse cid enr now' parse' cid' db x
    have h := store_ioc_snd_has_value now parse cid enr db x
    unfold store_ioc at h ⊢
    rw [if_pos h]
  refine ⟨hdup, hsecond, ?_⟩
  intro now parse cid enr now' parse' cid' db x h0
  rw [hsecond now parse cid enr now' parse' cid' db x]
  have hno := countValue_zero_no_match db x.ioc_value h0
  unfold store_ioc
  rw [if_neg (by rw [hno]; exact Bool.false_ne_true)]
  rw [countValue_append, h0]
  simp [countValue, mkFinalRecord]

/-- C5 witness: starting from an empty store, two `store_ioc` calls with the
same value leave exactly one record with that value. -/
theorem claim_C5_witness :
    countValue
      (store_ioc 0 (fun _ => none) 1 (fun _ => {})
        (store_ioc 0 (fun _ => none) 0 (fun _ => {}) []
          ⟨"1.2.3.4", some "ipv4", none⟩).2
        ⟨"1.2.3.4", some "ipv4", none⟩).2 "1.2.3.4" = 1 :=
  claim_C5.2.2 0 (fun _ => none) 0 (fun _ => {}) 0 (fun _ => none) 1 []
    ⟨"1.2.3.4", some "ipv4", none⟩ rfl

/-- Blockwise comparison of two records' scores. -/
lemma score_le_of_blocks (now : ℤ) (parse : List Char → Option ℤ) {r r' : IOCData}
    (h1 : (vtRateBlock r.vt_detection_rate r.vt_detections).1 ≤
          (vtRateBlock r'.vt_detection_rate r'.vt_detections).1)
    (h2 : (malwareBlock r.malware_family).1 ≤ (malwareBlock r'.malware_family).1)
    (h3 : (abuseBlock (r.ioc_type.getD "unknown") r.sources).1 ≤
          (abuseBlock (r'.ioc_type.getD "unknown") r'.sources).1)
    (h4 : (threatTextBlock r.context r.threat_type r.description).1 ≤
          (threatTextBlock r'.context r'.threat_type r'.description).1)
    (h5 : (recencyBlock now parse r.first_seen).1 ≤
          (recencyBlock now parse r'.first_seen).1)
    (h6 : (urlhausBlock r.source r.url_status r.threat).1 ≤
          (urlhausBlock r'.source r'.url_status r'.threat).1)
    (h7 : (vtRepBlock r.sources).1 ≤ (vtRepBlock r'.sources).1)
    (h8 : (numSourcesBlock r.sources).1 ≤ (numSourcesBlock r'.sources).1) :
    (severityScoreReasons now parse r).1 ≤ (severityScoreReasons now parse r').1 := by
  simp only [severityScoreReasons]
  omega

/-- The detection-rate band weight is monotone in the rate. -/
lemma vtRateBlock_mono (dets : Option PyVal) {q q' : ℚ} (h : q ≤ q') :
    (vtRateBlock (some q) dets).1 ≤ (vtRateBlock (some q') dets).1 := by
  unfold vtRateBlock
  simp only [Option.getD_some]
  split_ifs <;> simp_all <;> linarith

/-- `List.lookup` at the head key. -/
lemma lookup_cons_self {β : Type} (k : String) (v : β) (t : List (String × β)) :
    List.lookup k ((k, v) :: t) = some v := by
  simp [List.lookup]

/-- `List.lookup` skips a head entry with a different key. -/
lemma lookup_cons_ne {β : Type} {k k' : String} (v : β) (t : List (String × β))
    (h : k ≠ k') : List.lookup k ((k', v) :: t) = List.lookup k t := by
  have hb : (k == k') = false := beq_eq_false_iff_ne.mpr h
  simp [List.lookup, hb]

/-- `setAbuseScore` unfolded over a cons cell. -/
lemma setAbuseScore_cons (k1 : String) (v1 : SourceEntry)
    (t : List (String × SourceEntry)) (a : ℤ) :
    setAbuseScore ((k1, v1) :: t) a =
      (if k1 = "abuseipdb" then (k1, { v1 with abuse_confidence_score := some a })
       else (k1, v1)) :: setAbuseScore t a := by
  rfl


/-- `setAbuseScore` rewrites exactly the `abuseipdb` binding. -/
lemma lookup_setAbuseScore (srcs : List (String × SourceEntry)) (a : ℤ) (k : String) :
    List.lookup k (setAbuseScore srcs a) =
      if k = "abuseipdb" then
        (List.lookup k srcs).map (fun e => { e with abuse_confidence_score := some a })
      else List.lookup k srcs := by
  induction srcs with
  | nil => by_cases hk : k = "abuseipdb" <;> simp [setAbuseScore, hk]
  | cons kv t ih =>
    obtain ⟨k1, v1⟩ := kv
    rw [setAbuseScore_cons]
    by_cases hk1 : k1 = "abuseipdb"
    · rw [if_pos hk1]
      subst hk1
      by_cases hk : k = "abuseipdb"
      · subst hk
        rw [lookup_cons_self, lookup_cons_self, if_pos rfl]
        rfl
      · rw [lookup_cons_ne _ _ hk, lookup_cons_ne _ _ hk, ih, if_neg hk]
    · rw [if_neg hk1]
      by_cases hk : k = k1
      · subst hk
        rw [lookup_cons_self, lookup_cons_self, if_neg hk1]
      · rw [lookup_cons_ne _ _ hk, lookup_cons_ne _ _ hk, ih]

/-- `setAbuseScore` keeps the key list. -/
lemma keys_setAbuseScore (srcs : List (String × SourceEntry)) (a : ℤ) :
    (setAbuseScore srcs a).map Prod.fst = srcs.map Prod.fst := by
  induction srcs with
  | nil => rfl
  | cons kv t ih =>
    by_cases hk1 : kv.1 = "abuseipdb" <;>
      simp [setAbuseScore, hk1] at ih ⊢ <;> exact ih

/-- The AbuseIPDB band weight is monotone in the confidence score. -/
lemma abuseBlock_setAbuseScore_mono (ty : String) (srcs : List (String × SourceEntry))
    {a a' : ℤ} (h : a ≤ a') :
    (abuseBlock ty (setAbuseScore srcs a)).1 ≤ (abuseBlock ty (setAbuseScore srcs a')).1 := by
  unfold abuseBlock
  by_cases hty : ty = "ipv4"
  · rw [if_pos hty, if_pos hty, lookup_setAbuseScore, lookup_setAbuseScore,
      if_pos rfl, if_pos rfl]
    cases List.lookup "abuseipdb" srcs with
    | none => simp
    | some e =>
      simp only [Option.map_some', Option.getD_some]
      split_ifs <;> simp_all <;> omega
  · rw [if_neg hty, if_neg hty]

/-- The VT reputation rule ignores the `abuseipdb` binding. -/
lemma vtRepBlock_setAbuseScore (srcs : List (String × SourceEntry)) (a : ℤ) :
    vtRepBlock (setAbuseScore srcs a) = vtRepBlock srcs := by
  unfold vtRepBlock
  rw [lookup_setAbuseScore, if_neg (by decide)]

/-- The source count ignores the values of the mapping. -/
lemma numSources_setAbuseScore (srcs : List (String × SourceEntry)) (a : ℤ) :
    numSources (setAbuseScore srcs a) = numSources srcs := by
  unfold numSources
  rw [keys_setAbuseScore]

/-- A key with a binding appears in the key list. -/
lemma mem_keys_of_lookup {srcs : List (String × SourceEntry)} {k : String}
    {v : SourceEntry} (h : List.lookup k srcs = some v) : k ∈ srcs.map Prod.fst := by
  induction srcs with
  | nil => simp [List.lookup] at h
  | cons kv t ih =>
    obtain ⟨k1, v1⟩ := kv
    by_cases hk : k = k1
    · simp [hk]
    · rw [lookup_cons_ne _ _ hk] at h
      exact List.mem_cons_of_mem _ (ih h)

/-- A key in the key list has a binding. -/
lemma lookup_isSome_of_mem_keys {srcs : List (String × SourceEntry)} {k : String}
    (h : k ∈ srcs.map Prod.fst) : (List.lookup k srcs).isSome := by
  induction srcs with
  | nil => simp at h
  | cons kv t ih =>
    obtain ⟨k1, v1⟩ := kv
    by_cases hk : k = k1
    · subst hk
      rw [lookup_cons_self]
      rfl
    · rw [lookup_cons_ne _ _ hk]
      apply ih
      simp only [List.map_cons, List.mem_cons] at h
      exact h.resolve_left hk

/-- A sublist has at most as many distinct elements. -/
lemma dedup_length_le_of_subset {α : Type} [DecidableEq α] {l₁ l₂ : List α}
    (h : l₁ ⊆ l₂) : l₁.dedup.length ≤ l₂.dedup.length := by
  rw [← List.card_toFinset, ← List.card_toFinset]
  exact Finset.card_le_card
    (fun x hx => List.mem_toFinset.mpr (h (List.mem_toFinset.mp hx)))

/-- The corroboration weight is monotone in the source count. -/
lemma numSourcesBlock_mono {s s' : List (String × SourceEntry)}
    (h : numSources s ≤ numSources s') :
    (numSourcesBlock s).1 ≤ (numSourcesBlock s').1 := by
  unfold numSourcesBlock
  dsimp only
  split_ifs <;> simp_all <;> omega

/-- The AbuseIPDB rule never loses weight when the mapping grows. -/
lemma abuseBlock_le_of_superset (ty : String) {s s' : List (String × SourceEntry)}
    (hsub : ∀ k v, List.lookup k s = some v → List.lookup k s' = some v) :
    (abuseBlock ty s).1 ≤ (abuseBlock ty s').1 := by
  unfold abuseBlock
  by_cases hty : ty = "ipv4"
  · rw [if_pos hty, if_pos hty]
    cases hl : List.lookup "abuseipdb" s with
    | none => exact Nat.zero_le _
    | some e => rw [hsub _ _ hl]
  · rw [if_neg hty, if_neg hty]

/-- The VT reputation rule never loses weight when the mapping grows. -/
lemma vtRepBlock_le_of_superset {s s' : List (String × SourceEntry)}
    (hsub : ∀ k v, List.lookup k s = some v → List.lookup k s' = some v) :
    (vtRepBlock s).1 ≤ (vtRepBlock s').1 := by
  unfold vtRepBlock
  cases hl : List.lookup "virustotal" s with
  | none => exact Nat.zero_le _
  | some e => rw [hsub _ _ hl]

/-- C3: holding every other field fixed, the severity score computed inside
`calculate_severity` (`severityScoreReasons`) never decreases when (i) the
detection rate increases, (ii) the `abuseipdb` confidence score increases,
or (iii) the `sources` mapping grows to a superset (more corroborating
entries). -/
theorem claim_C3 :
    (∀ (now : ℤ) (parse : List Char → Option ℤ) (r : IOCData) (q q' : ℚ), q ≤ q' →
       (severityScoreReasons now parse { r with vt_detection_rate := some q }).1 ≤
       (severityScoreReasons now parse { r with vt_detection_rate := some q' }).1) ∧
    (∀ (now : ℤ) (parse : List Char → Option ℤ) (r : IOCData) (a a' : ℤ), a ≤ a' →
       (severityScoreReasons now parse { r with sources := setAbuseScore r.sources a }).1 ≤
       (severityScoreReasons now parse { r with sources := setAbuseScore r.sources a' }).1) ∧
    (∀ (now : ℤ) (parse : List Char → Option ℤ) (r : IOCData)
       (s' : List (String × SourceEntry)),
       (∀ k v, List.lookup k r.sources = some v → List.lookup k s' = some v) →
       (severityScoreReasons now parse r).1 ≤
       (severityScoreReasons now parse { r with sources := s' }).1) := by
  refine ⟨fun now parse r q q' h => ?_, fun now parse r a a' h => ?_,
    fun now parse r s' hsub => ?_⟩
  · exact score_le_of_blocks now parse (vtRateBlock_mono _ h) le_rfl le_rfl le_rfl
      le_rfl le_rfl le_rfl le_rfl
  · refine score_le_of_blocks now parse le_rfl le_rfl ?_ le_rfl le_rfl le_rfl ?_ ?_
    · exact abuseBlock_setAbuseScore_mono _ _ h
    · rw [show ({ r with sources := setAbuseScore r.sources a } : IOCData).sources =
          setAbuseScore r.sources a from rfl,
        show ({ r with sources := setAbuseScore r.sources a' } : IOCData).sources =
          setAbuseScore r.sources a' from rfl,
        vtRepBlock_setAbuseScore, vtRepBlock_setAbuseScore]
    · exact numSourcesBlock_mono (by
        rw [show ({ r with sources := setAbuseScore r.sources a } : IOCData).sources =
            setAbuseScore r.sources a from rfl,
          show ({ r with sources := setAbuseScore r.sources a' } : IOCData).sources =
            setAbuseScore r.sources a' from rfl,
          numSources_setAbuseScore, numSources_setAbuseScore])
  · refine score_le_of_blocks now parse le_rfl le_rfl ?_ le_rfl le_rfl le_rfl ?_ ?_
    · exact abuseBlock_le_of_superset _ hsub
    · exact vtRepBlock_le_of_superset hsub
    · refine numSourcesBlock_mono (dedup_length_le_of_subset ?_)
      intro k hk
      obtain ⟨v, hv⟩ := Option.isSome_iff_exists.mp (lookup_isSome_of_mem_keys hk)
      exact mem_keys_of_lookup (hsub _ _ hv)

/-- C3 witness: the three monotonicity clauses at concrete records. -/
theorem claim_C3_witness :
    ((severityScoreReasons 0 (fun _ => none)
        { vt_detection_rate := some 0 }).1 ≤
     (severityScoreReasons 0 (fun _ => none)
        { vt_detection_rate := some 1 }).1) ∧
    ((severityScoreReasons 0 (fun _ => none)
        { ioc_type := some "ipv4",
          sources := setAbuseScore [("abuseipdb", {})] 60 }).1 ≤
     (severityScoreReasons 0 (fun _ => none)
        { ioc_type := some "ipv4",
          sources := setAbuseScore [("abuseipdb", {})] 95 }).1) ∧
    ((severityScoreReasons 0 (fun _ => none)
        ({ ioc_type := some "ipv4", sources := [("abuseipdb", {})] } : IOCData)).1 ≤
     (severityScoreReasons 0 (fun _ => none)
        { ioc_type := some "ipv4",
          sources := [("abuseipdb", {}), ("virustotal", {})] }).1) := by
  refine ⟨?_, ?_, ?_⟩
  · exact claim_C3.1 0 (fun _ => none) {} 0 1 (by norm_num)
  · exact claim_C3.2.1 0 (fun _ => none)
      { ioc_type := some "ipv4", sources := [("abuseipdb", {})] } 60 95 (by norm_num)
  · refine claim_C3.2.2 0 (fun _ => none)
      { ioc_type := some "ipv4", sources := [("abuseipdb", {})] }
      [("abuseipdb", {}), ("virustotal", {})] ?_
    intro k v h
    simp only [List.lookup] at h ⊢
    cases hk : (k == "abuseipdb") with
    | true =>
      rw [hk] at h
      exact h
    | false =>
      rw [hk] at h
      simp at h

/-- Membership through sorted insertion. -/
lemma mem_insertSorted (a x : List Char) (l : List (List Char)) :
    a ∈ insertSorted x l ↔ a = x ∨ a ∈ l := by
  induction l with
  | nil => simp [insertSorted]
  | cons y ys ih =>
    unfold insertSorted
    split_ifs with h
    · simp [List.mem_cons]
    · simp only [List.mem_cons, ih]
      tauto

/-- Sorting keeps membership. -/
lemma mem_sortStrs (a : List Char) (l : List (List Char)) :
    a ∈ sortStrs l ↔ a ∈ l := by
  induction l with
  | nil => simp [sortStrs]
  | cons x xs ih => simp [sortStrs, mem_insertSorted, ih]

/-- A list is a Boolean prefix of itself extended on the right. -/
lemma isPrefixOf_append_self (x t : List Char) : x.isPrefixOf (x ++ t) = true := by
  induction x with
  | nil => simp
  | cons c cs ih => simp [List.isPrefixOf, ih]

/-- The empty needle is contained in every haystack. -/
lemma containsSub_nil (hay : List Char) : containsSub hay [] = true := by
  cases hay <;> simp [containsSub, List.isPrefixOf]

/-- Any middle segment is found by `containsSub`. -/
lemma containsSub_parts (s x t : List Char) : containsSub (s ++ x ++ t) x = true := by
  induction s with
  | nil =>
    simp only [List.nil_append]
    cases hx : x with
    | nil => exact containsSub_nil t
    | cons c cs =>
      rw [← hx]
      cases hxt : x ++ t with
      | nil =>
        rw [List.append_eq_nil] at hxt
        rw [hxt.1] at hx
        exact absurd hx (by simp)
      | cons d ds =>
        unfold containsSub
        rw [← hxt, isPrefixOf_append_self]
        rfl
  | cons c cs ih =>
    rw [List.cons_append, List.cons_append]
    show (x.isPrefixOf (c :: (cs ++ x ++ t)) || containsSub (cs ++ x ++ t) x) = true
    rw [ih, Bool.or_true]

/-- `afterSep` is a suffix of its argument. -/
lemma afterSep_suffix (u : List Char) : ∃ s, u = s ++ afterSep u := by
  induction u with
  | nil => exact ⟨[], rfl⟩
  | cons c rest ih =>
    unfold afterSep
    split_ifs with h
    · exact ⟨(c :: rest).take 3, (List.take_append_drop 3 (c :: rest)).symm⟩
    · obtain ⟨s, hs⟩ := ih
      exact ⟨c :: s, by rw [List.cons_append, ← hs]⟩

/-- The host is an inner segment of the URL. -/
lemma hostOf_parts (u : List Char) : ∃ s t, u = s ++ hostOf u ++ t := by
  obtain ⟨s, hs⟩ := afterSep_suffix u
  refine ⟨s, (afterSep u).dropWhile (· ≠ '/'), ?_⟩
  unfold hostOf
  rw [List.append_assoc, List.takeWhile_append_dropWhile]
  exact hs

/-- Every URL contains its own host as a substring. -/
lemma containsSub_hostOf (u : List Char) : containsSub u (hostOf u) = true := by
  obtain ⟨s, t, h⟩ := hostOf_parts u
  nth_rewrite 1 [h]
  exact containsSub_parts s (hostOf u) t

/-- C4 counterexample: the private-range filter only covers the `224.`
prefix of the multicast range, so the multicast address `225.0.0.1`
(first octet 225 ∈ 224..239) survives extraction and validation whenever the
IPv4 pattern matches it in the text — contradicting the claim that no
multicast address ever appears under the `ipv4` key. -/
theorem claim_C4_counterexample :
    extract_all (fun ty _ => if ty = .IPV4 then [strL "225.0.0.1"] else [])
        (strL "report") = [(.IPV4, [strL "225.0.0.1"])] ∧
    multicastFirstOctet (strL "225.0.0.1") = true ∧
    isPrivateIp (strL "225.0.0.1") = false := by
  exact ⟨by decide, by decide, by decide⟩

/-- C4 amended: for every text and every match set, the mapping returned by
`extract_all` contains under `ipv4` no address matching the code's
private/reserved prefix list (`127.`, `10.`, `172.16.`-`172.31.`,
`192.168.`, `0.`, `169.254.`, `224.`, `255.` — note: only the `224.` slice
of the multicast range, and only the `255.` slice of class E), no
benign-listed domain under `domain`, and no URL whose host is benign-listed
under `url`. -/
theorem claim_C4_amended (m : IOCType → List Char → List (List Char))
    (text : List Char) (ty : IOCType) (l : List (List Char))
    (hmem : (ty, l) ∈ extract_all m text) :
    (ty = .IPV4 → ∀ ip ∈ l, isPrivateIp ip = false) ∧
    (ty = .DOMAIN → ∀ d ∈ l, benignDomains.contains d = false) ∧
    (ty = .URL → ∀ u ∈ l, benignDomains.contains (hostOf (lowerL u)) = false) := by
  unfold extract_all at hmem
  by_cases htext : text = []
  · rw [if_pos htext] at hmem
    exact absurd hmem (by simp)
  · rw [if_neg htext] at hmem
    obtain ⟨ty₀, _, hf⟩ := List.mem_filterMap.mp hmem
    by_cases h1 : m ty₀ text = []
    · rw [if_pos h1] at hf
      exact absurd hf (by simp)
    · rw [if_neg h1] at hf
      by_cases h2 : (validateIocs ty₀ (m ty₀ text).dedup).dedup = []
      · rw [if_pos h2] at hf
        exact absurd hf (by simp)
      · rw [if_neg h2] at hf
        have hpair := Option.some.inj hf
        have htyeq : ty₀ = ty := congrArg Prod.fst hpair
        have hleq : sortStrs ((validateIocs ty₀ (m ty₀ text).dedup).dedup) = l :=
          congrArg Prod.snd hpair
        subst htyeq
        refine ⟨?_, ?_, ?_⟩
        · rintro rfl ip hip
          rw [← hleq] at hip
          have hval := List.mem_dedup.mp ((mem_sortStrs _ _).mp hip)
          have hc := (List.mem_filter.mp hval).2
          have h₁ := ((Bool.and_eq_true _ _).mp hc).1
          simpa using h₁
        · rintro rfl d hd
          rw [← hleq] at hd
          have hvd := List.mem_dedup.mp ((mem_sortStrs _ _).mp hd)
          obtain ⟨d₀, _, heq⟩ := List.mem_filterMap.mp hvd
          simp only [validateDomains] at heq
          split_ifs at heq with hb hdot hnum
          have hdl : lowerL d₀ = d := Option.some.inj heq
          rw [← hdl]
          cases hcb : benignDomains.contains (lowerL d₀) with
          | false => rfl
          | true => exact absurd hcb hb
        · rintro rfl u hu
          rw [← hleq] at hu
          have := List.mem_dedup.mp ((mem_sortStrs _ _).mp hu)
          have hc := (List.mem_filter.mp this).2
          have hsplit := (Bool.and_eq_true _ _).mp hc
          have hsplit2 := (Bool.and_eq_true _ _).mp hsplit.1
          have hany : benignDomains.any (fun b => containsSub (lowerL u) b) = false := by
            simpa using hsplit2.1
          cases hcontains : benignDomains.contains (hostOf (lowerL u)) with
          | false => rfl
          | true =>
            have hmem' : hostOf (lowerL u) ∈ benignDomains := by
              simpa using hcontains
            have : benignDomains.any (fun b => containsSub (lowerL u) b) = true :=
              List.any_eq_true.mpr ⟨hostOf (lowerL u), hmem', containsSub_hostOf _⟩
            rw [hany] at this
            exact absurd this (by simp)

/-- C4 amended witness: a concrete match set containing the public address
`8.8.8.8` passes through `extract_all`, and the theorem yields that it is
not in the private prefix list. -/
theorem claim_C4_amended_witness :
    isPrivateIp (strL "8.8.8.8") = false :=
  (claim_C4_amended (fun ty _ => if ty = .IPV4 then [strL "8.8.8.8"] else [])
      (strL "a") .IPV4 [strL "8.8.8.8"] (by decide)).1 rfl
    (strL "8.8.8.8") (by decide)

end SecInt
